import Mathlib

/-!
# Verification of the Targetly MCP SSE adapter bridge

Shallow embedding of `src/adapters/targetly-adapter.js`: the stdio-to-SSE
bridge that relays newline-delimited JSON between a child process and a set
of SSE sessions.  Stream text is modelled as `List Char` (`Chars`); the
mutable state of the adapter (the partial-line `buffer`, the `sessions`
Map, writes to `child.stdin`, and `console.error` logging) is an explicit
`AdapterState` threaded through the event handlers.  External runtime
functions (`JSON.parse`, `JSON.stringify`, `crypto.randomUUID`) are
parameters of the model.
-/

/-- Stream text: JS strings modelled as lists of characters. -/
abbrev Chars := List Char

/-- Prepend a character to the first component of a split, starting a new
singleton component if there is none.  Helper for `splitNl`. -/
def consHead (c : Char) : List Chars → List Chars
  | [] => [[c]]
  | l :: ls => (c :: l) :: ls

/-- JS `s.split("\n")`: the (always non-empty) list of newline-separated
components of `s`.  `"".split("\n") = [""]`, `"a\n".split("\n") = ["a",""]`. -/
def splitNl : Chars → List Chars
  | [] => [[]]
  | c :: rest => if c = '\n' then [] :: splitNl rest else consHead c (splitNl rest)

/-- The last element of a list of strings, `[]` when the list is empty.
Models `lines[lines.length - 1]` after `buffer.split("\n")` (always defined,
since a JS split is non-empty). -/
def lastD : List Chars → Chars
  | [] => []
  | [l] => l
  | _ :: l :: ls => lastD (l :: ls)

@[simp] theorem lastD_nil : lastD [] = [] := rfl

@[simp] theorem lastD_singleton (l : Chars) : lastD [l] = l := rfl

@[simp] theorem lastD_cons_cons (x y : Chars) (ls : List Chars) :
    lastD (x :: y :: ls) = lastD (y :: ls) := rfl

@[simp] theorem splitNl_nil : splitNl [] = [[]] := rfl

theorem splitNl_cons_nl (rest : Chars) : splitNl ('\n' :: rest) = [] :: splitNl rest := by
  simp [splitNl]

theorem splitNl_cons (c : Char) (rest : Chars) (hc : c ≠ '\n') :
    splitNl (c :: rest) = consHead c (splitNl rest) := by
  simp [splitNl, hc]

theorem consHead_ne_nil (c : Char) (ls : List Chars) : consHead c ls ≠ [] := by
  cases ls <;> simp [consHead]

theorem splitNl_ne_nil (s : Chars) : splitNl s ≠ [] := by
  cases s with
  | nil => simp
  | cons c rest =>
    simp only [splitNl]
    split
    · simp
    · exact consHead_ne_nil _ _

/-- A newline-free string splits into the single component it is. -/
theorem splitNl_of_not_mem (s : Chars) (h : '\n' ∉ s) : splitNl s = [s] := by
  induction s with
  | nil => simp
  | cons c rest ih =>
    simp only [List.mem_cons, not_or] at h
    have hc : c ≠ '\n' := fun hc => h.1 hc.symm
    simp [splitNl, if_neg hc, ih h.2, consHead]

/-- The trailing component of a split never contains a newline. -/
theorem not_mem_lastD_splitNl (s : Chars) : '\n' ∉ lastD (splitNl s) := by
  induction s with
  | nil => simp
  | cons c rest ih =>
    by_cases hc : c = '\n'
    · subst hc
      rw [splitNl_cons_nl]
      cases hs : splitNl rest with
      | nil => exact absurd hs (splitNl_ne_nil rest)
      | cons l ls =>
        rw [hs] at ih
        simpa using ih
    · rw [splitNl_cons c rest hc]
      cases hs : splitNl rest with
      | nil => exact absurd hs (splitNl_ne_nil rest)
      | cons l ls =>
        rw [hs] at ih
        cases ls with
        | nil =>
          simp only [consHead, lastD_singleton] at *
          simp only [List.mem_cons, not_or]
          exact ⟨fun h => hc h.symm, ih⟩
        | cons l₂ ls₂ => simpa [consHead] using ih

/-- Splitting a concatenation: the complete components of `a` come first, and
the trailing fragment of `a` is prepended onto the split of `b`. -/
theorem splitNl_append (a b : Chars) :
    splitNl (a ++ b) = (splitNl a).dropLast ++ splitNl (lastD (splitNl a) ++ b) := by
  induction a with
  | nil => simp [List.dropLast]
  | cons c rest ih =>
    by_cases hc : c = '\n'
    · subst hc
      rw [List.cons_append, splitNl_cons_nl, splitNl_cons_nl, ih]
      cases hs : splitNl rest with
      | nil => exact absurd hs (splitNl_ne_nil rest)
      | cons l ls => simp [List.dropLast]
    · rw [List.cons_append, splitNl_cons c (rest ++ b) hc, splitNl_cons c rest hc, ih]
      cases hs : splitNl rest with
      | nil => exact absurd hs (splitNl_ne_nil rest)
      | cons l ls =>
        cases ls with
        | nil =>
          simp only [List.dropLast, lastD_singleton, List.nil_append, consHead]
          rw [List.cons_append, splitNl_cons c (l ++ b) hc]
          rfl
        | cons l₂ ls₂ =>
          simp only [consHead, List.dropLast, lastD_cons_cons]
          cases hb : splitNl (lastD (l₂ :: ls₂) ++ b) with
          | nil => exact absurd hb (splitNl_ne_nil _)
          | cons m ms => simp [consHead]

/-- Corollary of `splitNl_append`: processing `a ++ b` yields the complete
lines of `a` followed by those of the trailing fragment of `a` glued to `b`. -/
theorem splitNl_append_dropLast (a b : Chars) :
    (splitNl (a ++ b)).dropLast =
      (splitNl a).dropLast ++ (splitNl (lastD (splitNl a) ++ b)).dropLast := by
  rw [splitNl_append]
  cases hb : splitNl (lastD (splitNl a) ++ b) with
  | nil => exact absurd hb (splitNl_ne_nil _)
  | cons m ms => rw [List.dropLast_append_cons]

theorem lastD_append_of_ne_nil (l₁ l₂ : List Chars) (h : l₂ ≠ []) :
    lastD (l₁ ++ l₂) = lastD l₂ := by
  induction l₁ with
  | nil => rfl
  | cons x l₁ ih =>
    cases hl : l₁ ++ l₂ with
    | nil => exact absurd (List.append_eq_nil.mp hl).2 h
    | cons y ys => rw [List.cons_append, hl, lastD_cons_cons, ← hl, ih]

theorem splitNl_append_lastD (a b : Chars) :
    lastD (splitNl (a ++ b)) = lastD (splitNl (lastD (splitNl a) ++ b)) := by
  rw [splitNl_append, lastD_append_of_ne_nil _ _ (splitNl_ne_nil _)]

/-- JS `!line.trim()`: the line is empty after trimming whitespace
(`String.prototype.trim` removes whitespace; modelled by `Char.isWhitespace`). -/
def jsIsBlank (l : Chars) : Bool := l.all Char.isWhitespace

/-- One SSE session as held by the adapter: the key of the `sessions` Map
entry together with the sequence of strings written to its HTTP response
stream (`res.write` calls, oldest first). -/
structure Session where
  id : Chars
  writes : List Chars
deriving DecidableEq, Repr

/-- The adapter's mutable state: the stdout partial-line `buffer`, the
`sessions` Map (insertion-ordered, as JS Maps are), the payloads passed to
`child.stdin.write`, and the lines passed to `console.error` (we record the
offending line of each `Invalid JSON from child` report). -/
structure AdapterState where
  buffer : Chars
  sessions : List Session
  childStdin : List Chars
  log : List Chars
deriving DecidableEq, Repr

/-- The two `res.write` calls the broadcast loop performs per session for one
valid line: `res.write("event: message\n"); res.write("data: " + line + "\n\n")`. -/
def messageEventWrites (line : Chars) : List Chars :=
  ["event: message\n".data, "data: ".data ++ line ++ "\n\n".data]

/-- The two `res.write` calls of the `/sse` handler's endpoint event:
`res.write("event: endpoint\n"); res.write("data: /messages?session_id=" + id + "\n\n")`. -/
def endpointEventWrites (sessionId : Chars) : List Chars :=
  ["event: endpoint\n".data, "data: /messages?session_id=".data ++ sessionId ++ "\n\n".data]

/-- The body of the `for (const line of lines)` loop in `child.stdout.on("data")`:
blank lines are skipped, lines accepted by `JSON.parse` (abstracted as the
predicate `parseOk`) are broadcast as one `message` event to every session in
Map order, and lines rejected by `JSON.parse` are logged and dropped. -/
def dispatchLine (parseOk : Chars → Bool) (st : AdapterState) (line : Chars) : AdapterState :=
  if jsIsBlank line then st
  else if parseOk line then
    { st with sessions :=
        st.sessions.map fun s => { s with writes := s.writes ++ messageEventWrites line } }
  else { st with log := st.log ++ [line] }

/-- The `child.stdout.on("data")` handler: append the chunk to `buffer`,
split on newlines, keep the trailing fragment as the new `buffer`
(`buffer = lines.pop()`), then dispatch each complete line. -/
def onStdoutData (parseOk : Chars → Bool) (st : AdapterState) (chunk : Chars) : AdapterState :=
  let parts := splitNl (st.buffer ++ chunk)
  (parts.dropLast).foldl (dispatchLine parseOk) { st with buffer := lastD parts }

/-- Feeding a sequence of stdout chunks to the adapter, in arrival order. -/
def runStdout (parseOk : Chars → Bool) (st : AdapterState) (chunks : List Chars) : AdapterState :=
  chunks.foldl (onStdoutData parseOk) st

/-- The pure core of the line framer, as a standalone component: one `data`
event's worth of work on the `buffer` string — split `buffer ++ chunk` on
newlines, emit the complete lines, retain the trailing fragment. -/
def framerStep (buffer chunk : Chars) : List Chars × Chars :=
  let parts := splitNl (buffer ++ chunk)
  (parts.dropLast, lastD parts)

/-- Running the framer over a chunk sequence: the concatenation of the
per-chunk emissions, with the pending fragment threaded through. -/
def runFramer (buffer : Chars) : List Chars → List Chars × Chars
  | [] => ([], buffer)
  | c :: cs =>
    let step := framerStep buffer c
    let rest := runFramer step.2 cs
    (step.1 ++ rest.1, rest.2)

/-- The lines of a stdout run that reach the broadcast loop: not blank and
accepted by `JSON.parse`. -/
def goodLines (parseOk : Chars → Bool) (ls : List Chars) : List Chars :=
  ls.filter fun l => !jsIsBlank l && parseOk l

/-- The lines of a stdout run that are logged and dropped: not blank and
rejected by `JSON.parse`. -/
def badLines (parseOk : Chars → Bool) (ls : List Chars) : List Chars :=
  ls.filter fun l => !jsIsBlank l && !parseOk l

/-- The complete lines the child has emitted over a chunk sequence starting
from an empty buffer: split the concatenation, drop the trailing fragment. -/
def emittedLines (chunks : List Chars) : List Chars :=
  (splitNl chunks.flatten).dropLast

theorem foldl_dispatchLine (p : Chars → Bool) (ls : List Chars) (st : AdapterState) :
    ls.foldl (dispatchLine p) st =
      { buffer := st.buffer
        sessions := st.sessions.map fun s =>
          { s with writes := s.writes ++ (goodLines p ls).flatMap messageEventWrites }
        childStdin := st.childStdin
        log := st.log ++ badLines p ls } := by
  induction ls generalizing st with
  | nil => simp [goodLines, badLines]
  | cons l ls ih =>
    rw [List.foldl_cons, ih]
    by_cases hb : jsIsBlank l
    · simp [dispatchLine, hb, goodLines, badLines, List.filter_cons]
    · by_cases hp : p l
      · have hg : goodLines p (l :: ls) = l :: goodLines p ls := by
          simp [goodLines, List.filter_cons, hb, hp]
        have hbad : badLines p (l :: ls) = badLines p ls := by
          simp [badLines, List.filter_cons, hb, hp]
        rw [hg, hbad]
        simp only [dispatchLine, hb, hp, Bool.false_eq_true, if_false, if_true]
        rw [List.map_map]
        have hcomp :
            ((fun s => { s with writes := s.writes ++ (goodLines p ls).flatMap messageEventWrites }) ∘
              (fun s : Session => { s with writes := s.writes ++ messageEventWrites l })) =
            fun s : Session =>
              { s with writes := s.writes ++ (l :: goodLines p ls).flatMap messageEventWrites } := by
          funext s
          simp [Function.comp, List.flatMap_cons, List.append_assoc]
        rw [hcomp]
      · have hg : goodLines p (l :: ls) = goodLines p ls := by
          simp [goodLines, List.filter_cons, hb, hp]
        have hbad : badLines p (l :: ls) = l :: badLines p ls := by
          simp [badLines, List.filter_cons, hb, hp]
        rw [hg, hbad]
        simp [dispatchLine, hb, hp]

theorem onStdoutData_eq (p : Chars → Bool) (st : AdapterState) (chunk : Chars) :
    onStdoutData p st chunk =
      { buffer := lastD (splitNl (st.buffer ++ chunk))
        sessions := st.sessions.map fun s =>
          { s with writes := s.writes ++
              (goodLines p ((splitNl (st.buffer ++ chunk)).dropLast)).flatMap messageEventWrites }
        childStdin := st.childStdin
        log := st.log ++ badLines p ((splitNl (st.buffer ++ chunk)).dropLast) } := by
  unfold onStdoutData
  rw [foldl_dispatchLine]

/-- Master characterization of the stdout path: starting from a newline-free
buffer, feeding any chunk sequence leaves the trailing fragment of the total
stream in `buffer`, appends to every session exactly the `message` events of
the parseable non-blank complete lines of the total stream (in emission
order, the same for every session), logs exactly the unparseable non-blank
lines, and never touches `child.stdin`. -/
theorem runStdout_eq (p : Chars → Bool) (b : Chars) (ss : List Session)
    (w lg : List Chars) (chunks : List Chars) (hb : '\n' ∉ b) :
    runStdout p ⟨b, ss, w, lg⟩ chunks =
      ⟨lastD (splitNl (b ++ chunks.flatten)),
       ss.map fun s => { s with writes := s.writes ++
           (goodLines p ((splitNl (b ++ chunks.flatten)).dropLast)).flatMap messageEventWrites },
       w,
       lg ++ badLines p ((splitNl (b ++ chunks.flatten)).dropLast)⟩ := by
  induction chunks generalizing b ss lg with
  | nil =>
    rw [show (([] : List Chars).flatten) = ([] : Chars) from rfl, List.append_nil,
      splitNl_of_not_mem b hb]
    simp [runStdout, goodLines, badLines, List.dropLast]
  | cons c cs ih =>
    have hb' := not_mem_lastD_splitNl (b ++ c)
    have hstep : runStdout p ⟨b, ss, w, lg⟩ (c :: cs) =
        runStdout p (onStdoutData p ⟨b, ss, w, lg⟩ c) cs := rfl
    rw [hstep, onStdoutData_eq]
    rw [ih (lastD (splitNl (b ++ c))) _ _ hb']
    have hflat : b ++ (c :: cs).flatten = (b ++ c) ++ cs.flatten := by
      rw [List.flatten_cons, ← List.append_assoc]
    rw [hflat, splitNl_append_dropLast (b ++ c) cs.flatten,
      splitNl_append_lastD (b ++ c) cs.flatten]
    have hgood : goodLines p ((splitNl (b ++ c)).dropLast ++
        (splitNl (lastD (splitNl (b ++ c)) ++ cs.flatten)).dropLast) =
        goodLines p ((splitNl (b ++ c)).dropLast) ++
          goodLines p ((splitNl (lastD (splitNl (b ++ c)) ++ cs.flatten)).dropLast) :=
      List.filter_append _ _
    have hbad : badLines p ((splitNl (b ++ c)).dropLast ++
        (splitNl (lastD (splitNl (b ++ c)) ++ cs.flatten)).dropLast) =
        badLines p ((splitNl (b ++ c)).dropLast) ++
          badLines p ((splitNl (lastD (splitNl (b ++ c)) ++ cs.flatten)).dropLast) :=
      List.filter_append _ _
    rw [hgood, hbad, List.map_map]
    have hcomp :
        ((fun s => { s with writes := (s.writes ++
            ((goodLines p ((splitNl (lastD (splitNl (b ++ c)) ++ cs.flatten)).dropLast)).flatMap
              messageEventWrites)) }) ∘
          (fun s : Session => { s with writes := (s.writes ++
            ((goodLines p ((splitNl (b ++ c)).dropLast)).flatMap messageEventWrites)) })) =
        fun s : Session => { s with writes := (s.writes ++
          ((goodLines p ((splitNl (b ++ c)).dropLast) ++
            goodLines p ((splitNl (lastD (splitNl (b ++ c)) ++ cs.flatten)).dropLast)).flatMap
              messageEventWrites)) } := by
      funext s
      simp [Function.comp, List.flatMap_append, List.append_assoc]
    rw [hcomp, List.append_assoc]

/-- Running the framer from a newline-free pending fragment emits exactly the
complete lines of the whole concatenated stream and retains the text after
the last newline as the new pending fragment. -/
theorem runFramer_eq (b : Chars) (chunks : List Chars) (hb : '\n' ∉ b) :
    runFramer b chunks =
      ((splitNl (b ++ chunks.flatten)).dropLast, lastD (splitNl (b ++ chunks.flatten))) := by
  induction chunks generalizing b with
  | nil =>
    rw [show (([] : List Chars).flatten) = ([] : Chars) from rfl, List.append_nil,
      splitNl_of_not_mem b hb]
    simp [runFramer, List.dropLast]
  | cons c cs ih =>
    have hb' := not_mem_lastD_splitNl (b ++ c)
    have hflat : b ++ (c :: cs).flatten = (b ++ c) ++ cs.flatten := by
      rw [List.flatten_cons, ← List.append_assoc]
    rw [hflat, splitNl_append_dropLast (b ++ c) cs.flatten,
      splitNl_append_lastD (b ++ c) cs.flatten]
    show ((framerStep b c).1 ++ (runFramer (framerStep b c).2 cs).1,
        (runFramer (framerStep b c).2 cs).2) = _
    rw [show framerStep b c = ((splitNl (b ++ c)).dropLast, lastD (splitNl (b ++ c))) from rfl]
    rw [ih (lastD (splitNl (b ++ c))) hb']

/-- The value `req.body` holds when the POST handler runs, after the body
parsing middleware: either a JS object parsed by `express.json()` — carried
here as its canonical `JSON.stringify` re-serialization, which is all the
handler uses it for — or the raw text produced by `express.text({type:"*/*"})`. -/
inductive BodyVal where
  | obj (canonical : Chars)
  | str (raw : Chars)
deriving DecidableEq, Repr

/-- The single line the POST handler derives from `req.body`:
`if (typeof body === "object") body = JSON.stringify(body)`. -/
def bodyLine : BodyVal → Chars
  | .obj canonical => canonical
  | .str raw => raw

/-- The body-parsing middleware stack `app.use(express.json())` followed by
`app.use(express.text({ type: "*/*" }))`, applied to a request with raw body
`raw`.  `parse` abstracts `JSON.parse ∘ JSON.stringify`-composition: on
success it returns the canonical re-serialization of the parsed value.  For a
request whose content type matches `application/json`, `express.json` parses
the body (responding `400` itself on malformed JSON, so the route handler
never runs); any other content type falls through to `express.text`, which
hands the handler the raw text unexamined. -/
def runBodyMiddleware (parse : Chars → Option Chars) (contentTypeJson : Bool)
    (raw : Chars) : Except Nat BodyVal :=
  if contentTypeJson then
    match parse raw with
    | some canonical => .ok (.obj canonical)
    | none => .error 400
  else .ok (.str raw)

/-- Outcome of one `POST /messages` request: the adapter state afterwards and
the HTTP status code sent. -/
structure PostResult where
  st : AdapterState
  status : Nat
deriving DecidableEq, Repr

/-- The `app.post("/messages")` handler.  `sessionId` is
`req.query.session_id` (`none` when absent); JS `!sessionId` is also true for
the empty string, hence the explicit empty check.  An unknown or missing id
yields `400` with no other effect; otherwise the body line plus one newline
is written to `child.stdin` and `202` is returned. -/
def handlePost (st : AdapterState) (sessionId : Option Chars) (body : BodyVal) : PostResult :=
  match sessionId with
  | none => ⟨st, 400⟩
  | some sid =>
    if sid = [] then ⟨st, 400⟩
    else if st.sessions.any (fun s => decide (s.id = sid)) then
      ⟨{ st with childStdin := st.childStdin ++ [bodyLine body ++ ['\n']] }, 202⟩
    else ⟨st, 400⟩

/-- A whole `POST /messages` request: middleware first, then the route
handler; a middleware rejection leaves the state untouched. -/
def handlePostRequest (parse : Chars → Option Chars) (contentTypeJson : Bool)
    (raw : Chars) (sessionId : Option Chars) (st : AdapterState) : PostResult :=
  match runBodyMiddleware parse contentTypeJson raw with
  | .error status => ⟨st, status⟩
  | .ok body => handlePost st sessionId body

/-- JS `Map.prototype.set`: replace in place when the key exists, append
otherwise.  The stored value is the fresh SSE response stream, which has had
nothing written to it yet. -/
def sessionsSet (ss : List Session) (sid : Chars) : List Session :=
  if ss.any (fun s => decide (s.id = sid)) then
    ss.map fun s => if s.id = sid then ⟨sid, []⟩ else s
  else ss ++ [⟨sid, []⟩]

/-- Append writes to the response stream registered under `sid`. -/
def writeTo (ss : List Session) (sid : Chars) (ws : List Chars) : List Session :=
  ss.map fun s => if s.id = sid then { s with writes := s.writes ++ ws } else s

/-- The `app.get("/sse")` handler with `newId` the value returned by
`crypto.randomUUID()`: register the response stream under the fresh id, then
write the `endpoint` event to it.  (Header setup and the 15-second keep-alive
timer write to the same stream later, outside this synchronous handler.) -/
def handleSse (st : AdapterState) (newId : Chars) : AdapterState :=
  { st with sessions := writeTo (sessionsSet st.sessions newId) newId (endpointEventWrites newId) }

/-- The `req.on("close")` handler of a session: `sessions.delete(sessionId)`. -/
def handleSessionClose (st : AdapterState) (sid : Chars) : AdapterState :=
  { st with sessions := st.sessions.filter fun s => !decide (s.id = sid) }

/-- The `child.on("exit")` handler runs `process.exit(code || 1)`.  The JS
exit `code` is a number or `null` (modelled `Option Nat`); `code || 1`
evaluates to `1` both when `code` is `null` and when it is `0`, since `0` is
falsy in JS. -/
def adapterExitCode : Option Nat → Nat
  | some code => if code = 0 then 1 else code
  | none => 1

/-- A written chunk that frames exactly one message: it ends in a newline and
contains no other newline. -/
def wellFramed (w : Chars) : Prop := w.getLast? = some '\n' ∧ '\n' ∉ w.dropLast

/-- A newline-terminated line at the front of the stream splits off whole. -/
theorem splitNl_terminated (l rest : Chars) (h : '\n' ∉ l) :
    splitNl (l ++ '\n' :: rest) = l :: splitNl rest := by
  induction l with
  | nil => simp [splitNl_cons_nl]
  | cons c cl ih =>
    simp only [List.mem_cons, not_or] at h
    have hc : c ≠ '\n' := fun e => h.1 e.symm
    rw [List.cons_append, splitNl_cons c _ hc, ih h.2]
    rfl

/-- C2: chunking-invariance of the line framer.  Starting from an empty
pending fragment, the list of lines the framer emits over any chunk sequence
equals the complete newline-terminated lines of the concatenation of all
chunks (so in particular the multiset of non-blank lines agrees, stated as
the filtered-list equality), regardless of chunk boundaries; the data after
the last newline is exactly the retained pending fragment. -/
theorem c2_chunking_invariance (chunks : List Chars) :
    runFramer [] chunks = (emittedLines chunks, lastD (splitNl chunks.flatten)) ∧
    (runFramer [] chunks).1.filter (fun l => !jsIsBlank l) =
      (emittedLines chunks).filter (fun l => !jsIsBlank l) := by
  have h := runFramer_eq [] chunks (by simp)
  rw [List.nil_append] at h
  exact ⟨h, by rw [h]; rfl⟩

/-- C1: broadcast-order invariance.  For any run of stdout chunks while the
sessions in `ss` are open, every open session's stream is extended by exactly
the `message` events of the parseable non-blank lines the child emitted, one
event per line carrying the line verbatim, in emission order — identically
for every session. -/
theorem c1_broadcast_order_invariance (parseOk : Chars → Bool) (ss : List Session)
    (w lg : List Chars) (chunks : List Chars) :
    (runStdout parseOk ⟨[], ss, w, lg⟩ chunks).sessions =
      ss.map fun s => { s with writes := (s.writes ++
        ((goodLines parseOk (emittedLines chunks)).flatMap messageEventWrites)) } := by
  rw [runStdout_eq parseOk [] ss w lg chunks (by simp)]
  rfl

/-- Stand-in for `JSON.parse` success on the concrete lines used by the
witnesses: accepts exactly the JSON array text `[1,2]`. -/
def parseOkStub : Chars → Bool := fun l => decide (l = "[1,2]".data)

/-- C3: a line that fails `JSON.parse` is logged and dropped — no session
receives any event for it — and the following valid line is delivered to
every session unchanged. -/
theorem c3_malformed_line_isolated (parseOk : Chars → Bool) (ss : List Session)
    (w lg : List Chars) (bad good : Chars)
    (hbadNl : '\n' ∉ bad) (hgoodNl : '\n' ∉ good)
    (hbadBlank : jsIsBlank bad = false) (hbadParse : parseOk bad = false)
    (hgoodBlank : jsIsBlank good = false) (hgoodParse : parseOk good = true) :
    runStdout parseOk ⟨[], ss, w, lg⟩ [bad ++ ['\n'], good ++ ['\n']] =
      ⟨[], ss.map fun s => { s with writes := (s.writes ++ messageEventWrites good) },
       w, lg ++ [bad]⟩ := by
  rw [runStdout_eq parseOk [] ss w lg _ (by simp)]
  have h1 : ([] : Chars) ++ ([bad ++ ['\n'], good ++ ['\n']] : List Chars).flatten =
      bad ++ '\n' :: (good ++ ['\n']) := by simp
  rw [h1, splitNl_terminated bad _ hbadNl, splitNl_terminated good [] hgoodNl]
  simp [goodLines, badLines, List.filter_cons, hbadBlank, hbadParse, hgoodBlank, hgoodParse,
    List.dropLast]

theorem c3_witness :
    runStdout parseOkStub ⟨[], [⟨"s1".data, []⟩], [], []⟩
        ["not-json".data ++ ['\n'], "[1,2]".data ++ ['\n']] =
      ⟨[], ([⟨"s1".data, []⟩] : List Session).map
          (fun s => { s with writes := (s.writes ++ messageEventWrites ("[1,2]".data)) }),
       [], [] ++ ["not-json".data]⟩ :=
  c3_malformed_line_isolated parseOkStub [⟨"s1".data, []⟩] [] [] ("not-json".data) ("[1,2]".data)
    (by decide) (by decide) (by decide) (by decide) (by decide) (by decide)

/-- C8: a session deleted from the registry before the child's output is
dispatched receives zero events — after the close, no registry entry with its
id exists, so no delivery channel of that session is ever written — while
every other open session still receives the full broadcast exactly as it
would have, and `child.stdin` is untouched by the close and the broadcast.
(The close is the `req.on("close")` handler, which is also how a delivery
channel error surfaces in Node: the response stream emits `close` and the
session is deleted, with no retry.) -/
theorem c8_close_does_not_disturb_broadcast (parseOk : Chars → Bool) (ss : List Session)
    (w lg : List Chars) (sid : Chars) (chunks : List Chars) :
    (runStdout parseOk (handleSessionClose ⟨[], ss, w, lg⟩ sid) chunks =
      ⟨lastD (splitNl chunks.flatten),
       (ss.filter fun s => !decide (s.id = sid)).map fun s =>
         { s with writes := (s.writes ++
             ((goodLines parseOk (emittedLines chunks)).flatMap messageEventWrites)) },
       w,
       lg ++ badLines parseOk (emittedLines chunks)⟩) ∧
    ((runStdout parseOk (handleSessionClose ⟨[], ss, w, lg⟩ sid) chunks).sessions.all
        fun s => !decide (s.id = sid)) = true := by
  have hclose : handleSessionClose ⟨[], ss, w, lg⟩ sid =
      ⟨[], ss.filter fun s => !decide (s.id = sid), w, lg⟩ := rfl
  have hrun := runStdout_eq parseOk [] (ss.filter fun s => !decide (s.id = sid)) w lg chunks
    (by simp)
  constructor
  · rw [hclose, hrun]
    rfl
  · rw [hclose, hrun]
    simp only [List.all_eq_true, List.mem_map, List.mem_filter]
    rintro s ⟨t, ⟨_, ht⟩, rfl⟩
    simpa using ht

/-- Stand-in for the canonical-re-serialization composite
`JSON.stringify ∘ JSON.parse` on the concrete bodies used by the witnesses:
defined (and canonically the identity) exactly on the JSON array text
`[1,2]`, undefined on everything else, as for `not-json`. -/
def parseStub : Chars → Option Chars :=
  fun l => if l = "[1,2]".data then some ("[1,2]".data) else none

/-- A one-session adapter state used by the witnesses: session `s1` is open
with nothing yet written to it. -/
def stW : AdapterState := ⟨[], [⟨"s1".data, []⟩], [], []⟩

/-- C4: a POST whose `session_id` is registered writes exactly one line to
the child's stdin — the canonical re-serialization when the body was parsed
as JSON, the raw text otherwise — followed by a single newline, and answers
`202`. -/
theorem c4_post_valid_session_forwards (parse : Chars → Option Chars) (st : AdapterState)
    (sid raw canonical : Chars) (hsid : sid ≠ [])
    (hmem : st.sessions.any (fun s => decide (s.id = sid)) = true) :
    (parse raw = some canonical →
      handlePostRequest parse true raw (some sid) st =
        ⟨{ st with childStdin := st.childStdin ++ [canonical ++ ['\n']] }, 202⟩) ∧
    handlePostRequest parse false raw (some sid) st =
      ⟨{ st with childStdin := st.childStdin ++ [raw ++ ['\n']] }, 202⟩ := by
  constructor
  · intro hp
    simp [handlePostRequest, runBodyMiddleware, hp, handlePost, hsid, hmem, bodyLine]
  · simp [handlePostRequest, runBodyMiddleware, handlePost, hsid, hmem, bodyLine]

theorem c4_witness :
    handlePostRequest parseStub true ("[1,2]".data) (some ("s1".data)) stW =
      ⟨{ stW with childStdin := stW.childStdin ++ ["[1,2]".data ++ ['\n']] }, 202⟩ ∧
    handlePostRequest parseStub false ("[1,2]".data) (some ("s1".data)) stW =
      ⟨{ stW with childStdin := stW.childStdin ++ ["[1,2]".data ++ ['\n']] }, 202⟩ :=
  ⟨(c4_post_valid_session_forwards parseStub stW ("s1".data) ("[1,2]".data) ("[1,2]".data)
      (by decide) (by decide)).1 (by decide),
   (c4_post_valid_session_forwards parseStub stW ("s1".data) ("[1,2]".data) ("[1,2]".data)
      (by decide) (by decide)).2⟩

/-- C5: a POST whose `session_id` is missing, empty, or not registered is
answered `400` and leaves the whole adapter state — in particular the
child's stdin — unchanged. -/
theorem c5_invalid_session_rejected (parse : Chars → Option Chars) (contentTypeJson : Bool)
    (raw : Chars) (st : AdapterState) (sessionId : Option Chars)
    (h : ∀ sid, sessionId = some sid →
      sid = [] ∨ st.sessions.any (fun s => decide (s.id = sid)) = false) :
    (handlePostRequest parse contentTypeJson raw sessionId st).st = st ∧
    (handlePostRequest parse contentTypeJson raw sessionId st).status = 400 := by
  have hpost : ∀ body, (handlePost st sessionId body).st = st ∧
      (handlePost st sessionId body).status = 400 := by
    intro body
    cases sessionId with
    | none => exact ⟨rfl, rfl⟩
    | some sid =>
      rcases h sid rfl with he | hn
      · simp [handlePost, he]
      · by_cases he : sid = []
        · simp [handlePost, he]
        · simp [handlePost, he, hn]
  unfold handlePostRequest
  cases contentTypeJson with
  | false => simpa [runBodyMiddleware] using hpost (.str raw)
  | true =>
    cases hp : parse raw with
    | none => simp [runBodyMiddleware, hp]
    | some canonical => simpa [runBodyMiddleware, hp] using hpost (.obj canonical)

theorem c5_witness :
    (handlePostRequest parseStub false ("[1,2]".data) none stW).st = stW ∧
    (handlePostRequest parseStub false ("[1,2]".data) none stW).status = 400 :=
  c5_invalid_session_rejected parseStub false ("[1,2]".data) stW none
    (fun _ hsid => by cases hsid)

/-- C6: a GET to `/sse` with a fresh generated id registers the session and
synchronously writes, as the first and only writes on the new response
stream, the `endpoint` event whose data is `/messages?session_id=<id>`; a
lookup of the id in the registry succeeds immediately afterwards. -/
theorem c6_sse_endpoint_event_and_lookup (st : AdapterState) (newId : Chars)
    (hfresh : st.sessions.any (fun s => decide (s.id = newId)) = false) :
    (handleSse st newId).sessions = st.sessions ++ [⟨newId, endpointEventWrites newId⟩] ∧
    ((handleSse st newId).sessions.any fun s => decide (s.id = newId)) = true := by
  have hids : ∀ s ∈ st.sessions, ¬ (s.id = newId) := by
    intro s hs he
    have h2 : (st.sessions.any fun s => decide (s.id = newId)) = true :=
      List.any_eq_true.mpr ⟨s, hs, by simp [he]⟩
    rw [hfresh] at h2
    exact Bool.false_ne_true h2
  have hset : sessionsSet st.sessions newId = st.sessions ++ [⟨newId, []⟩] := by
    simp [sessionsSet, hfresh]
  have h1 : ∀ ss : List Session, (∀ s ∈ ss, ¬ (s.id = newId)) →
      (ss.map fun s =>
        if s.id = newId then { s with writes := s.writes ++ endpointEventWrites newId }
        else s) = ss := by
    intro ss
    induction ss with
    | nil => intro _; rfl
    | cons a as iha =>
      intro hall
      rw [List.map_cons, if_neg (hall a (by simp)), iha fun s hs => hall s (by simp [hs])]
  have hmain : (handleSse st newId).sessions =
      st.sessions ++ [⟨newId, endpointEventWrites newId⟩] := by
    show writeTo (sessionsSet st.sessions newId) newId (endpointEventWrites newId) = _
    rw [hset]
    unfold writeTo
    rw [List.map_append, h1 st.sessions hids]
    simp
  refine ⟨hmain, ?_⟩
  rw [hmain, List.any_append]
  simp

theorem c6_witness :
    (handleSse stW ("u1".data)).sessions =
      stW.sessions ++ [⟨"u1".data, endpointEventWrites ("u1".data)⟩] ∧
    ((handleSse stW ("u1".data)).sessions.any fun s => decide (s.id = "u1".data)) = true :=
  c6_sse_endpoint_event_and_lookup stW ("u1".data) (by decide)

instance (w : Chars) : Decidable (wellFramed w) := by
  unfold wellFramed
  infer_instance

/-- C7 counterexample: with session `s1` open, a POST whose (text) body is
`a\nb` makes the handler write `a\nb\n` to the child's stdin — a single
written message with a newline embedded mid-message, refuting the claim that
no written message ever embeds one. -/
theorem c7_counterexample :
    (handlePost stW (some ("s1".data)) (.str ("a\nb".data))).st.childStdin =
      ["a\nb\n".data] ∧ ¬ wellFramed ("a\nb\n".data) := by
  constructor
  · decide
  · decide

/-- C7 amended: the writer appends exactly one newline terminator to every
message it writes to the child's stdin; whenever the message content itself
contains no newline (as with canonically re-serialized JSON bodies), the
written chunk therefore ends with its single appended newline and has none
embedded mid-message.  (A raw text body may itself contain newlines, which
pass through — the counterexample.) -/
theorem c7_amended_single_appended_newline (st : AdapterState) (sid : Chars) (body : BodyVal)
    (hsid : sid ≠ []) (hmem : st.sessions.any (fun s => decide (s.id = sid)) = true) :
    (handlePost st (some sid) body).st.childStdin =
      st.childStdin ++ [bodyLine body ++ ['\n']] ∧
    ('\n' ∉ bodyLine body → wellFramed (bodyLine body ++ ['\n'])) := by
  constructor
  · simp [handlePost, hsid, hmem]
  · intro h
    constructor
    · rw [List.getLast?_concat]
    · rw [List.dropLast_concat]
      exact h

theorem c7_witness :
    (handlePost stW (some ("s1".data)) (.obj ("[1,2]".data))).st.childStdin =
      stW.childStdin ++ ["[1,2]".data ++ ['\n']] ∧
    wellFramed ("[1,2]".data ++ ['\n']) :=
  ⟨(c7_amended_single_appended_newline stW ("s1".data) (.obj ("[1,2]".data))
      (by decide) (by decide)).1,
   (c7_amended_single_appended_newline stW ("s1".data) (.obj ("[1,2]".data))
      (by decide) (by decide)).2 (by decide)⟩

/-- C9 counterexample: when the child exits with code `0`, `process.exit(code || 1)`
exits with `1`, not with the child's reported code — `0` is falsy in JS. -/
theorem c9_counterexample : adapterExitCode (some 0) = 1 ∧ (1 : Nat) ≠ 0 := by decide

/-- C9 amended: the adapter terminates with the child's exit code whenever
the child reports a nonzero one, and with code `1` both when the child exited
with no code and when it exited with code `0` (JS falsiness of `0` in
`code || 1`). -/
theorem c9_amended_exit_code (c : Nat) (h : c ≠ 0) :
    adapterExitCode (some c) = c ∧ adapterExitCode none = 1 ∧
      adapterExitCode (some 0) = 1 := by
  simp [adapterExitCode, h]

theorem c9_witness :
    adapterExitCode (some 3) = 3 ∧ adapterExitCode none = 1 ∧
      adapterExitCode (some 0) = 1 :=
  c9_amended_exit_code 3 (by decide)

/-- C10 counterexample: a POST declaring a JSON content type whose body
fails to parse is rejected with `400` by the `express.json()` middleware and
nothing is written to the child — even though its `session_id` is registered
— refuting that requests are forwarded and answered `202` regardless of
whether the body parses, with unknown session id the only rejection. -/
theorem c10_counterexample :
    (stW.sessions.any fun s => decide (s.id = "s1".data)) = true ∧
    (handlePostRequest parseStub true ("not-json".data) (some ("s1".data)) stW).status = 400 ∧
    (handlePostRequest parseStub true ("not-json".data) (some ("s1".data)) stW).st.childStdin
      = [] := by
  refine ⟨by decide, by decide, by decide⟩

/-- C10 amended: the route handler itself never inspects the body — for a
request handled by the text middleware (any non-JSON content type) the body
is forwarded verbatim and acknowledged `202` whenever the `session_id` is
registered, whatever the content — but a request declaring a JSON content
type with a body `JSON.parse` rejects is answered `400` by the body-parsing
middleware before the handler runs, with nothing written to the child. -/
theorem c10_amended_body_inspection (parse : Chars → Option Chars) (raw : Chars)
    (sid : Chars) (st : AdapterState) (hsid : sid ≠ [])
    (hmem : st.sessions.any (fun s => decide (s.id = sid)) = true) :
    handlePostRequest parse false raw (some sid) st =
      ⟨{ st with childStdin := st.childStdin ++ [raw ++ ['\n']] }, 202⟩ ∧
    (parse raw = none →
      handlePostRequest parse true raw (some sid) st = ⟨st, 400⟩) := by
  constructor
  · simp [handlePostRequest, runBodyMiddleware, handlePost, hsid, hmem, bodyLine]
  · intro hp
    simp [handlePostRequest, runBodyMiddleware, hp]

theorem c10_witness :
    handlePostRequest parseStub false ("not-json".data) (some ("s1".data)) stW =
      ⟨{ stW with childStdin := stW.childStdin ++ ["not-json".data ++ ['\n']] }, 202⟩ ∧
    handlePostRequest parseStub true ("not-json".data) (some ("s1".data)) stW = ⟨stW, 400⟩ :=
  ⟨(c10_amended_body_inspection parseStub ("not-json".data) ("s1".data) stW
      (by decide) (by decide)).1,
   (c10_amended_body_inspection parseStub ("not-json".data) ("s1".data) stW
      (by decide) (by decide)).2 (by decide)⟩
